import Mathlib

/-!
Shallow embedding of `compact-git-status` (Go): the status parser
(`parseStatus`), the renderer (`buildOutput`), and the top-level control
flow of `main`/`gitState`.  Strings are modelled as Lean `String`
(sequences of characters); the Go code indexes and slices by byte, which
coincides with the character model on the ASCII data all record fields of
the porcelain format carry.  Go's `strings.Split` on a one-character
separator is modelled by `splitOnChar`; `strconv.Atoi` by `atoi`;
`fmt.Sprintf("%d", n)` by `intDecimal`.  A Go runtime fault
(out-of-range index or slice) is modelled by `Fault.panic`, an error
`return` by `Fault.err`.
-/

/-- The structured status summary (`Status` in the Go source).  Counters
are `Int`, matching Go `int` (overflow is irrelevant at these sizes). -/
structure Status where
  Commit : String
  Branch : String
  Upstream : String
  Ahead : Int
  Behind : Int
  Staged : Int
  Conflict : Int
  Modified : Int
  Untracked : Int
  Stashed : Int
deriving DecidableEq

/-- The in-progress-operation state (`State` in the Go source). -/
structure State where
  Step : Int
  Total : Int
  State : String
deriving DecidableEq

/-- The configurable symbol table (`Symbols` in the Go source). -/
structure Symbols where
  Prefix : String
  Suffix : String
  Sep : String
  Local : String
  Ahead : String
  Behind : String
  Staged : String
  Conflict : String
  Modified : String
  Untracked : String
  Stashed : String
  Clean : String
deriving DecidableEq

/-- The Go zero value `&Status{}` that `parseStatus` starts from. -/
def Status.empty : Status :=
  { Commit := "", Branch := "", Upstream := "", Ahead := 0, Behind := 0,
    Staged := 0, Conflict := 0, Modified := 0, Untracked := 0, Stashed := 0 }

/-- The `&State{State: ""}` value `gitState` starts from. -/
def emptyState : State := { Step := 0, Total := 0, State := "" }

/-- The default symbol set registered as flag defaults in `main`. -/
def defaultSymbols : Symbols :=
  { Prefix := "[", Suffix := "]", Sep := "|", Local := "L",
    Ahead := "↑·", Behind := "↓·", Staged := "● ", Conflict := "✖ ",
    Modified := "✚ ", Untracked := "…", Stashed := "⚑ ", Clean := "✔" }

/-- Go's `strings.Split` on a one-character separator: every occurrence
splits, empty pieces are kept, and the empty input yields `[[]]`. -/
def splitOnChar (sep : Char) : List Char → List (List Char)
  | [] => [[]]
  | c :: cs =>
    if c = sep then [] :: splitOnChar sep cs
    else
      match splitOnChar sep cs with
      | [] => [[c]]
      | g :: gs => (c :: g) :: gs

/-- `strings.Split(line, " ")` of the Go parser. -/
def fields (line : String) : List String :=
  (splitOnChar ' ' line.data).map String.mk

/-- `strings.Split(output, "\n")` of the Go parser. -/
def gitLines (output : String) : List String :=
  (splitOnChar '\n' output.data).map String.mk

/-- Decimal digit character for a value below ten. -/
def digitChar : Nat → Char
  | 0 => '0' | 1 => '1' | 2 => '2' | 3 => '3' | 4 => '4'
  | 5 => '5' | 6 => '6' | 7 => '7' | 8 => '8' | 9 => '9'
  | _ => '*'

/-- Numeric value of a digit character. -/
def charDigitVal (c : Char) : Nat := c.toNat - 48

/-- Value of a big-endian digit-character list. -/
def natFromDigits (ds : List Char) : Nat :=
  ds.foldl (fun a c => 10 * a + charDigitVal c) 0

/-- Fuel-driven decimal printer; `fuel ≥ n` suffices. -/
def decimalAux : Nat → Nat → List Char
  | 0, _ => []
  | _ + 1, 0 => []
  | fuel + 1, n + 1 => decimalAux fuel ((n + 1) / 10) ++ [digitChar ((n + 1) % 10)]

/-- Decimal digit characters of a natural number (`"0"` for zero). -/
def decimalChars (n : Nat) : List Char :=
  if n = 0 then ['0'] else decimalAux n n

/-- Go's `fmt.Sprintf("%d", i)` for an `int`. -/
def intDecimal (i : Int) : String :=
  if i < 0 then String.mk ('-' :: decimalChars i.natAbs)
  else String.mk (decimalChars i.natAbs)

/-- Go's string slice `s[:n]` (first `n` characters). -/
def strTake (s : String) (n : Nat) : String := String.mk (s.data.take n)

/-- Go's `strconv.Atoi`: optional single sign, then one or more digits. -/
def atoi (s : String) : Option Int :=
  match s.data with
  | [] => none
  | c :: ds =>
    if c = '+' then
      if ds.isEmpty then none
      else if ds.all Char.isDigit then some (Int.ofNat (natFromDigits ds)) else none
    else if c = '-' then
      if ds.isEmpty then none
      else if ds.all Char.isDigit then some (-(Int.ofNat (natFromDigits ds))) else none
    else if (c :: ds).all Char.isDigit then some (Int.ofNat (natFromDigits (c :: ds)))
    else none

/-- Outcome of a parsing step: a Go runtime fault (out-of-range index or
slice), a returned error, or a result. -/
inductive Fault where
  | panic : Fault
  | err : String → Fault
deriving DecidableEq

deriving instance DecidableEq for Except

/-- The conflict codes recognised by `parseStatus`. -/
def conflictCodes : List String := ["DD", "AU", "UD", "UA", "DU", "AA", "UU"]

/-- `case "branch.oid"`: `status.Commit = s[2]`, faulting when the field
is missing. -/
def parseSetCommit (status : Status) : List String → Except Fault Status
  | [] => .error .panic
  | f2 :: _ => .ok { status with Commit := f2 }

/-- `case "branch.head"`: `status.Branch = s[2]`. -/
def parseSetBranch (status : Status) : List String → Except Fault Status
  | [] => .error .panic
  | f2 :: _ => .ok { status with Branch := f2 }

/-- `case "branch.upstream"`: `status.Upstream = s[2]`. -/
def parseSetUpstream (status : Status) : List String → Except Fault Status
  | [] => .error .panic
  | f2 :: _ => .ok { status with Upstream := f2 }

/-- `case "stash"`: `status.Stashed = Atoi(s[2])`. -/
def parseStash (status : Status) : List String → Except Fault Status
  | [] => .error .panic
  | f2 :: _ =>
    match atoi f2 with
    | none => .error (.err "parse num stashed")
    | some n => .ok { status with Stashed := n }

/-- Second half of `case "branch.ab"`: `Atoi(s[3][1:])`, the slice
faulting on an empty field. -/
def parseABBehind (status : Status) (ahead : Int) : List String → Except Fault Status
  | [] => .error .panic
  | f3 :: _ =>
    if f3.data.isEmpty then .error .panic
    else
      match atoi (String.mk (f3.data.drop 1)) with
      | none => .error (.err "parse behind")
      | some behind => .ok { status with Ahead := ahead, Behind := behind }

/-- `case "branch.ab"`: `Atoi(s[2][1:])` then `Atoi(s[3][1:])`. -/
def parseAB (status : Status) : List String → Except Fault Status
  | [] => .error .panic
  | f2 :: rest3 =>
    if f2.data.isEmpty then .error .panic
    else
      match atoi (String.mk (f2.data.drop 1)) with
      | none => .error (.err "parse ahead")
      | some ahead => parseABBehind status ahead rest3

/-- The `case "#"` header dispatch on `s[1]` (faulting when absent). -/
def parseHeader (status : Status) : List String → Except Fault Status
  | [] => .error .panic
  | f1 :: rest2 =>
    if f1 = "branch.oid" then parseSetCommit status rest2
    else if f1 = "branch.head" then parseSetBranch status rest2
    else if f1 = "stash" then parseStash status rest2
    else if f1 = "branch.upstream" then parseSetUpstream status rest2
    else if f1 = "branch.ab" then parseAB status rest2
    else .ok status

/-- The `case "1", "2"` changed-entry classification on the code `s[1]`:
conflict codes first, then worktree-modified (second character `M`,
faulting when the code is shorter than two), else staged. -/
def parseChanged (status : Status) : List String → Except Fault Status
  | [] => .error .panic
  | f1 :: _ =>
    if f1 ∈ conflictCodes then .ok { status with Conflict := status.Conflict + 1 }
    else
      match f1.data.get? 1 with
      | none => .error .panic
      | some c =>
        if c = 'M' then .ok { status with Modified := status.Modified + 1 }
        else .ok { status with Staged := status.Staged + 1 }

/-- The `switch s[0]` dispatch of the `parseStatus` loop body. -/
def parseLineFields (status : Status) : List String → Except Fault Status
  | [] => .error .panic
  | f0 :: rest =>
    if f0 = "#" then parseHeader status rest
    else if f0 = "1" ∨ f0 = "2" then parseChanged status rest
    else if f0 = "?" then .ok { status with Untracked := status.Untracked + 1 }
    else .ok status

/-- One iteration of the `parseStatus` loop: processing a single record.
Positional accesses `s[i]` of the Go code appear as matches whose missing
case is `Fault.panic`; the slice `s[i][1:]` faults exactly on an empty
field. -/
def parseLine (status : Status) (line : String) : Except Fault Status :=
  parseLineFields status (fields line)

/-- The `parseStatus` loop over the report's records; the Go function
returns on the first error, and a fault aborts it. -/
def parseLines : Status → List String → Except Fault Status
  | status, [] => .ok status
  | status, l :: ls =>
    match parseLine status l with
    | .ok status2 => parseLines status2 ls
    | .error e => .error e

/-- `parseStatus` of the Go source. -/
def parseStatus (output : String) : Except Fault Status :=
  parseLines Status.empty (gitLines output)

/-- The branch/upstream fragment of `buildOutput` (non-detached case):
a space and the local symbol, or a space and the upstream in braces. -/
def upstreamSection (status : Status) (symbols : Symbols) : String :=
  if status.Upstream = "" then " " ++ symbols.Local
  else " \x7b" ++ status.Upstream ++ "\x7d"

/-- The ahead/behind fragment of `buildOutput`. -/
def aheadBehind (status : Status) (symbols : Symbols) : String :=
  if 0 < status.Ahead ∨ 0 < status.Behind then
    " " ++ (if 0 < status.Ahead then symbols.Ahead ++ intDecimal status.Ahead else "")
        ++ (if 0 < status.Behind then symbols.Behind ++ intDecimal status.Behind else "")
  else ""

/-- The head of `buildOutput`'s output: detached commit slice (faulting,
like Go's `status.Commit[:7]`, when the commit id is shorter than 7), or
branch name with upstream and ahead/behind fragments. -/
def headSection (status : Status) (symbols : Symbols) : Option String :=
  if status.Branch = "(detached)" then
    if status.Commit.length < 7 then none
    else some (":" ++ strTake status.Commit 7)
  else some (status.Branch ++ upstreamSection status symbols ++ aheadBehind status symbols)

/-- The operation-state fragment of `buildOutput`. -/
def stateSection (state : State) (symbols : Symbols) : String :=
  if state.State = "" then ""
  else
    state.State ++
      (if 0 < state.Total then
        " " ++ intDecimal state.Step ++ "/" ++ intDecimal state.Total
      else "") ++ symbols.Sep

/-- One per-category group of `buildOutput`: symbol next to count when
the count is positive, nothing otherwise. -/
def countGroup (count : Int) (symbol : String) : String :=
  if 0 < count then symbol ++ intDecimal count else ""

/-- The per-category groups of `buildOutput`, in source order: staged,
conflict, modified, untracked, stashed. -/
def countsSection (status : Status) (symbols : Symbols) : String :=
  countGroup status.Staged symbols.Staged ++
  countGroup status.Conflict symbols.Conflict ++
  countGroup status.Modified symbols.Modified ++
  countGroup status.Untracked symbols.Untracked ++
  countGroup status.Stashed symbols.Stashed

/-- The clean-symbol fragment of `buildOutput`: emitted exactly when all
five counters equal zero. -/
def cleanSection (status : Status) (symbols : Symbols) : String :=
  if status.Staged = 0 ∧ status.Conflict = 0 ∧ status.Modified = 0 ∧
      status.Untracked = 0 ∧ status.Stashed = 0 then
    symbols.Clean
  else ""

/-- `buildOutput` of the Go source: the sequential `strings.Builder`
writes become string concatenation; `none` models the fault of the
detached commit slice. -/
def buildOutput (status : Status) (state : State) (symbols : Symbols) : Option String :=
  match headSection status symbols with
  | none => none
  | some head =>
    some (symbols.Prefix ++ head ++ symbols.Sep ++ stateSection state symbols ++
      countsSection status symbols ++ cleanSection status symbols ++ symbols.Suffix)

/-- Outcome of running the external `git rev-parse --show-toplevel`
command: stdout on success, the exit code when the process exited
nonzero (`exec.ExitError`), or a failure to run it at all. -/
inductive CmdOutcome where
  | ok : String → CmdOutcome
  | exitErr : Int → CmdOutcome
  | otherErr : CmdOutcome
deriving DecidableEq

/-- Result of `gitState`'s error classification (source lines 119-125):
exit code 128 means "not a repository" and yields the nil state, any
other failure is an error; success proceeds with the reported toplevel. -/
inductive GitStateResult where
  | notRepo : GitStateResult
  | fatal : GitStateResult
  | proceed : String → GitStateResult
deriving DecidableEq

/-- The error handling of `gitState` around the rev-parse invocation. -/
def gitStateClassify : CmdOutcome → GitStateResult
  | .ok out => .proceed out
  | .exitErr code => if code = 128 then .notRepo else .fatal
  | .otherErr => .fatal

/-- Observable result of a whole run: silent success (exit 0, nothing on
stdout), abnormal termination with a diagnostic (`log.Fatal` or a
runtime fault; nothing on stdout), or exit 0 with exactly `out` written
to stdout. -/
inductive ProgResult where
  | silentSuccess : ProgResult
  | fatalError : ProgResult
  | printed : String → ProgResult
deriving DecidableEq

/-- The control flow of `main`: classify the rev-parse outcome, then
parse the status report and print `buildOutput`'s string via
`fmt.Print`, which appends nothing.  The operation state and the raw
status report stand for the outcomes of the remaining external calls. -/
def mainRun (rev : CmdOutcome) (opState : State) (statusOut : String)
    (symbols : Symbols) : ProgResult :=
  match gitStateClassify rev with
  | .fatal => .fatalError
  | .notRepo => .silentSuccess
  | .proceed _ =>
    match parseStatus statusOut with
    | .error _ => .fatalError
    | .ok status =>
      match buildOutput status opState symbols with
      | none => .fatalError
      | some out => .printed out

/-- A string whose last character is a newline. -/
def endsWithNewline (s : String) : Prop := s.data.getLast? = some '\n'

/-- Modelled from the spec: "each record type has a fixed minimum field
count" — the minimum number of space-separated fields the parser's fixed
indices require for each record type of the report. -/
def specMinFields (line : String) : Bool :=
  match fields line with
  | [] => false
  | f0 :: rest =>
    if f0 = "#" then
      match rest with
      | [] => false
      | f1 :: rest2 =>
        if f1 = "branch.oid" ∨ f1 = "branch.head" ∨ f1 = "branch.upstream" ∨ f1 = "stash" then
          decide (1 ≤ rest2.length)
        else if f1 = "branch.ab" then decide (2 ≤ rest2.length)
        else true
    else if f0 = "1" ∨ f0 = "2" then !rest.isEmpty
    else true

/-- Safe shape of a `branch.ab` tail: the two sliced fields exist and
are nonempty. -/
def safeABFields : List String → Bool
  | f2 :: f3 :: _ => !f2.data.isEmpty && !f3.data.isEmpty
  | _ => false

/-- Safe shape of a header-record tail. -/
def safeHeaderFields : List String → Bool
  | [] => false
  | f1 :: rest2 =>
    if f1 = "branch.oid" ∨ f1 = "branch.head" ∨ f1 = "branch.upstream" ∨ f1 = "stash" then
      decide (1 ≤ rest2.length)
    else if f1 = "branch.ab" then safeABFields rest2
    else true

/-- Safe shape of a changed-entry tail: the code exists and has at least
two characters. -/
def safeChangedFields : List String → Bool
  | [] => false
  | f1 :: _ => decide (2 ≤ f1.data.length)

/-- Safe shape of a record's field list. -/
def safeFieldsList : List String → Bool
  | [] => false
  | f0 :: rest =>
    if f0 = "#" then safeHeaderFields rest
    else if f0 = "1" ∨ f0 = "2" then safeChangedFields rest
    else true

/-- The precondition that actually rules out every runtime fault of
`parseLine`: the minimum field counts, a changed-entry code of at least
two characters, and nonempty ahead/behind fields (the Go code slices
them). -/
def safeFields (line : String) : Bool := safeFieldsList (fields line)

/-- Dropping a prefix never lengthens a list. -/
theorem length_dropWhile_le (p : Char → Bool) (l : List Char) :
    (l.dropWhile p).length ≤ l.length := by
  induction l with
  | nil => simp [List.dropWhile]
  | cons c cs ih =>
    by_cases h : p c
    · simp only [List.dropWhile, h]
      exact Nat.le_trans ih (Nat.le_succ _)
    · simp only [List.dropWhile, h]
      simp

/-- Splits a category-groups string back into (symbol, count) blocks:
a maximal run of non-digit characters followed by a maximal nonempty run
of digits, repeated. -/
def parseBlocks : List Char → Option (List (List Char × Nat))
  | [] => some []
  | c :: cs =>
    if c.isDigit then none
    else
      let rest := List.dropWhile (fun x => !x.isDigit) cs
      let num := List.takeWhile Char.isDigit rest
      if num = [] then none
      else
        match parseBlocks (List.dropWhile Char.isDigit rest) with
        | some bs =>
          some ((c :: List.takeWhile (fun x => !x.isDigit) cs, natFromDigits num) :: bs)
        | none => none
termination_by l => l.length
decreasing_by
  simp only [List.length_cons]
  have h1 : (List.dropWhile (fun x => !x.isDigit) cs).length ≤ cs.length :=
    length_dropWhile_le _ cs
  have h2 : (List.dropWhile Char.isDigit (List.dropWhile (fun x => !x.isDigit) cs)).length ≤
      (List.dropWhile (fun x => !x.isDigit) cs).length :=
    length_dropWhile_le _ _
  omega

/-- The five category symbols in the emission order of `buildOutput`. -/
def groupSymbols (symbols : Symbols) : List String :=
  [symbols.Staged, symbols.Conflict, symbols.Modified, symbols.Untracked, symbols.Stashed]

/-- Matches parsed blocks against an ordered symbol list: a category
whose symbol heads the block list takes that block's count, every other
category gets zero; trailing blocks are a parse failure. -/
def matchCounts : List (List Char) → List (List Char × Nat) → Option (List Nat)
  | [], [] => some []
  | [], _ :: _ => none
  | _ :: ts, [] =>
    match matchCounts ts [] with
    | some ns => some (0 :: ns)
    | none => none
  | t :: ts, (s, n) :: bs =>
    if s = t then
      match matchCounts ts bs with
      | some ns => some (n :: ns)
      | none => none
    else
      match matchCounts ts ((s, n) :: bs) with
      | some ns => some (0 :: ns)
      | none => none

/-- Re-parses the category-groups fragment emitted by `buildOutput`
into the five counts, in emission order. -/
def parseGroups (symbols : Symbols) (s : String) : Option (List Int) :=
  match parseBlocks s.data with
  | none => none
  | some bs =>
    match matchCounts ((groupSymbols symbols).map String.data) bs with
    | none => none
    | some ns => some (ns.map Int.ofNat)

/-- Symbol tables whose category symbols are distinguishable: each is
nonempty, digit-free, and they are pairwise distinct. -/
def distinguishable (symbols : Symbols) : Prop :=
  (∀ s ∈ groupSymbols symbols, s.data ≠ [] ∧ ∀ c ∈ s.data, c.isDigit = false) ∧
  List.Pairwise (fun a b => a.data ≠ b.data) (groupSymbols symbols)

/-- Concatenation of rendered (symbol, count) blocks. -/
def renderBlocks : List (List Char × Nat) → List Char
  | [] => []
  | (s, n) :: bs => s ++ decimalChars n ++ renderBlocks bs

/-- Concatenation of (symbol, count) groups where a zero count emits
nothing — the list form of `countsSection`. -/
def renderGroups : List (List Char × Nat) → List Char
  | [] => []
  | (s, n) :: ps => (if 0 < n then s ++ decimalChars n else []) ++ renderGroups ps

/-- Concatenation of strings concatenates their character lists. -/
theorem strData_append (a b : String) : (a ++ b).data = a.data ++ b.data := by
  cases a; cases b; rfl

/-- String concatenation is associative. -/
theorem strAppend_assoc (a b c : String) : a ++ b ++ c = a ++ (b ++ c) := by
  cases a; cases b; cases c
  exact congrArg String.mk (List.append_assoc _ _ _)

/-- The empty string is a right identity. -/
theorem strAppend_empty (a : String) : a ++ "" = a := by
  cases a
  exact congrArg String.mk (List.append_nil _)

/-- The empty string is a left identity. -/
theorem strEmpty_append (a : String) : "" ++ a = a := by
  cases a
  exact congrArg String.mk (List.nil_append _)

/-- `charDigitVal` inverts `digitChar` below ten. -/
theorem charDigitVal_digitChar : ∀ d : Nat, d < 10 → charDigitVal (digitChar d) = d := by
  decide

/-- `digitChar` yields digit characters below ten. -/
theorem isDigit_digitChar : ∀ d : Nat, d < 10 → (digitChar d).isDigit = true := by
  decide

/-- Every character the decimal printer emits is a digit. -/
theorem decimalAux_all_digit :
    ∀ fuel n : Nat, ∀ c ∈ decimalAux fuel n, c.isDigit = true := by
  intro fuel
  induction fuel with
  | zero => intro n c hc; simp [decimalAux] at hc
  | succ fuel ih =>
    intro n c hc
    match n with
    | 0 => simp [decimalAux] at hc
    | m + 1 =>
      simp only [decimalAux, List.mem_append, List.mem_singleton] at hc
      rcases hc with hc | hc
      · exact ih _ _ hc
      · subst hc
        exact isDigit_digitChar _ (Nat.mod_lt _ (by omega))

/-- The decimal printer emits something for a positive value. -/
theorem decimalAux_ne_nil (fuel n : Nat) (hn : 0 < n) (hf : n ≤ fuel) :
    decimalAux fuel n ≠ [] := by
  match fuel, n with
  | 0, n => omega
  | fuel + 1, m + 1 =>
    simp [decimalAux]

/-- Folding the digit accumulator over the printer's output recovers the
value. -/
theorem foldl_decimalAux :
    ∀ fuel n : Nat, n ≤ fuel → ∀ acc : Nat,
      (decimalAux fuel n).foldl (fun a c => 10 * a + charDigitVal c) acc =
        acc * 10 ^ (decimalAux fuel n).length + n := by
  intro fuel
  induction fuel with
  | zero =>
    intro n hn acc
    have : n = 0 := by omega
    subst this
    simp [decimalAux]
  | succ fuel ih =>
    intro n hn acc
    match n with
    | 0 => simp [decimalAux]
    | m + 1 =>
      have hq : (m + 1) / 10 ≤ fuel := by
        have h1 : (m + 1) / 10 < m + 1 := Nat.div_lt_self (by omega) (by omega)
        omega
      have hr : (m + 1) % 10 < 10 := Nat.mod_lt _ (by omega)
      simp only [decimalAux, List.foldl_append, List.foldl_cons, List.foldl_nil,
        List.length_append, List.length_cons, List.length_nil]
      rw [ih _ hq acc, charDigitVal_digitChar _ hr]
      have hdm := Nat.div_add_mod (m + 1) 10
      have hpow : 10 ^ ((decimalAux fuel ((m + 1) / 10)).length + (0 + 1)) =
          10 ^ (decimalAux fuel ((m + 1) / 10)).length * 10 := by
        rw [Nat.zero_add, Nat.pow_succ]
      rw [hpow]
      calc 10 * (acc * 10 ^ (decimalAux fuel ((m + 1) / 10)).length + (m + 1) / 10) + (m + 1) % 10
          = acc * (10 ^ (decimalAux fuel ((m + 1) / 10)).length * 10) +
              (10 * ((m + 1) / 10) + (m + 1) % 10) := by ring
        _ = acc * (10 ^ (decimalAux fuel ((m + 1) / 10)).length * 10) + (m + 1) := by rw [hdm]

/-- `natFromDigits` inverts `decimalChars`. -/
theorem natFromDigits_decimalChars (n : Nat) : natFromDigits (decimalChars n) = n := by
  by_cases h : n = 0
  · subst h; decide
  · unfold decimalChars natFromDigits
    rw [if_neg h, foldl_decimalAux n n (Nat.le_refl n) 0]
    simp

/-- All characters of `decimalChars` are digits. -/
theorem decimalChars_all_digit (n : Nat) : ∀ c ∈ decimalChars n, c.isDigit = true := by
  intro c hc
  unfold decimalChars at hc
  by_cases h : n = 0
  · rw [if_pos h] at hc
    simp at hc
    subst hc; decide
  · rw [if_neg h] at hc
    exact decimalAux_all_digit _ _ _ hc

/-- `decimalChars` is never empty. -/
theorem decimalChars_ne_nil (n : Nat) : decimalChars n ≠ [] := by
  unfold decimalChars
  by_cases h : n = 0
  · rw [if_pos h]; simp
  · rw [if_neg h]
    exact decimalAux_ne_nil n n (by omega) (Nat.le_refl n)

/-- `takeWhile` passes over a block that satisfies the predicate. -/
theorem takeWhile_append_all (p : Char → Bool) (xs ys : List Char)
    (h : ∀ x ∈ xs, p x = true) :
    (xs ++ ys).takeWhile p = xs ++ ys.takeWhile p := by
  induction xs with
  | nil => simp
  | cons x xs ih =>
    have hx : p x = true := h x (by simp)
    simp only [List.cons_append, List.takeWhile_cons, hx, if_true]
    rw [ih (fun a ha => h a (by simp [ha]))]

/-- `dropWhile` consumes a block that satisfies the predicate. -/
theorem dropWhile_append_all (p : Char → Bool) (xs ys : List Char)
    (h : ∀ x ∈ xs, p x = true) :
    (xs ++ ys).dropWhile p = ys.dropWhile p := by
  induction xs with
  | nil => simp
  | cons x xs ih =>
    have hx : p x = true := h x (by simp)
    simp only [List.cons_append, List.dropWhile_cons, hx, if_true]
    exact ih (fun a ha => h a (by simp [ha]))

/-- `takeWhile` stops at a failing head. -/
theorem takeWhile_cons_neg (p : Char → Bool) (y : Char) (ys : List Char)
    (h : p y = false) : (y :: ys).takeWhile p = [] := by
  simp [List.takeWhile_cons, h]

/-- `dropWhile` keeps a list whose head fails. -/
theorem dropWhile_cons_neg (p : Char → Bool) (y : Char) (ys : List Char)
    (h : p y = false) : (y :: ys).dropWhile p = y :: ys := by
  simp [List.dropWhile_cons, h]

/-- A well-formed block: nonempty digit-free symbol, positive count. -/
def validBlock (b : List Char × Nat) : Prop :=
  b.1 ≠ [] ∧ (∀ c ∈ b.1, c.isDigit = false) ∧ 0 < b.2

/-- Splitting a digit run followed by a non-digit (or empty) remainder. -/
theorem takeWhile_digits_split (ds rest : List Char)
    (hds : ∀ c ∈ ds, c.isDigit = true)
    (hrest : rest = [] ∨ ∃ d ds2, rest = d :: ds2 ∧ d.isDigit = false) :
    (ds ++ rest).takeWhile Char.isDigit = ds ∧
      (ds ++ rest).dropWhile Char.isDigit = rest := by
  rcases hrest with h | ⟨d, ds2, rfl, hd⟩
  · subst h
    constructor
    · rw [takeWhile_append_all _ _ _ hds]
      simp
    · rw [dropWhile_append_all _ _ _ hds]
      simp
  · constructor
    · rw [takeWhile_append_all _ _ _ hds, takeWhile_cons_neg _ _ _ hd, List.append_nil]
    · rw [dropWhile_append_all _ _ _ hds, dropWhile_cons_neg _ _ _ hd]

/-- Splitting a non-digit run followed by a digit-headed (or empty)
remainder. -/
theorem takeWhile_nondigits_split (xs rest : List Char)
    (hxs : ∀ c ∈ xs, c.isDigit = false)
    (hrest : rest = [] ∨ ∃ d ds2, rest = d :: ds2 ∧ d.isDigit = true) :
    (xs ++ rest).takeWhile (fun x => !x.isDigit) = xs ∧
      (xs ++ rest).dropWhile (fun x => !x.isDigit) = rest := by
  have hxs2 : ∀ c ∈ xs, (fun x => !x.isDigit) c = true := by
    intro c hc; simp [hxs c hc]
  rcases hrest with h | ⟨d, ds2, rfl, hd⟩
  · subst h
    constructor
    · rw [takeWhile_append_all _ _ _ hxs2]
      simp
    · rw [dropWhile_append_all _ _ _ hxs2]
      simp
  · constructor
    · rw [takeWhile_append_all _ _ _ hxs2, takeWhile_cons_neg _ _ _ (by simp [hd]),
        List.append_nil]
    · rw [dropWhile_append_all _ _ _ hxs2, dropWhile_cons_neg _ _ _ (by simp [hd])]

/-- A rendering of valid blocks is empty or starts with a non-digit. -/
theorem renderBlocks_shape (bs : List (List Char × Nat))
    (hv : ∀ b ∈ bs, validBlock b) :
    renderBlocks bs = [] ∨
      ∃ d ds, renderBlocks bs = d :: ds ∧ d.isDigit = false := by
  cases bs with
  | nil => exact Or.inl rfl
  | cons b bs =>
    obtain ⟨s, n⟩ := b
    obtain ⟨hs_ne, hs_nd, -⟩ := hv (s, n) (by simp)
    cases s with
    | nil => exact absurd rfl hs_ne
    | cons a s' =>
      refine Or.inr ⟨a, s' ++ decimalChars n ++ renderBlocks bs, ?_, hs_nd a (by simp)⟩
      simp [renderBlocks]

/-- Parsing the rendering of valid blocks recovers the blocks. -/
theorem parseBlocks_renderBlocks :
    ∀ bs : List (List Char × Nat), (∀ b ∈ bs, validBlock b) →
      parseBlocks (renderBlocks bs) = some bs := by
  intro bs
  induction bs with
  | nil =>
    intro _
    simp [renderBlocks, parseBlocks]
  | cons b bs ih =>
    intro hv
    obtain ⟨s, n⟩ := b
    obtain ⟨hs_ne, hs_nd, hn⟩ := hv (s, n) (by simp)
    obtain ⟨a, s', rfl⟩ : ∃ a s', s = a :: s' := by
      cases s with
      | nil => exact absurd rfl hs_ne
      | cons a s' => exact ⟨a, s', rfl⟩
    have ha : a.isDigit = false := hs_nd a (by simp)
    have hs' : ∀ c ∈ s', c.isDigit = false := fun c hc => hs_nd c (by simp [hc])
    have hdec_ne : decimalChars n ≠ [] := decimalChars_ne_nil n
    have hdec_digit : ∀ c ∈ decimalChars n, c.isDigit = true := decimalChars_all_digit n
    have hrest := renderBlocks_shape bs (fun b hb => hv b (by simp [hb]))
    obtain ⟨d0, dtail, hdec⟩ : ∃ d0 dtail, decimalChars n = d0 :: dtail := by
      cases hd : decimalChars n with
      | nil => exact absurd hd hdec_ne
      | cons d0 dtail => exact ⟨d0, dtail, rfl⟩
    have hsplit1 := takeWhile_nondigits_split s' (decimalChars n ++ renderBlocks bs) hs'
      (Or.inr ⟨d0, dtail ++ renderBlocks bs, by rw [hdec]; simp,
        hdec_digit d0 (by rw [hdec]; simp)⟩)
    have hsplit2 := takeWhile_digits_split (decimalChars n) (renderBlocks bs)
      hdec_digit hrest
    have hrender : renderBlocks ((a :: s', n) :: bs) =
        a :: (s' ++ (decimalChars n ++ renderBlocks bs)) := by
      simp [renderBlocks]
    rw [hrender, parseBlocks]
    simp only [ha, Bool.false_eq_true, if_false]
    rw [hsplit1.2, hsplit2.1, hsplit2.2, if_neg hdec_ne, ih (fun b hb => hv b (by simp [hb]))]
    rw [hsplit1.1, natFromDigits_decimalChars]

/-- Dropping the zero-count groups turns `renderGroups` into
`renderBlocks`. -/
theorem renderGroups_eq_renderBlocks :
    ∀ ps : List (List Char × Nat),
      renderGroups ps = renderBlocks (ps.filter fun p => decide (0 < p.2)) := by
  intro ps
  induction ps with
  | nil => rfl
  | cons p ps ih =>
    obtain ⟨s, n⟩ := p
    by_cases hn : 0 < n
    · simp only [renderGroups, if_pos hn, List.filter_cons,
        decide_eq_true_eq, hn, if_true, renderBlocks]
      rw [ih, List.append_assoc]
    · simp only [renderGroups, if_neg hn, List.filter_cons,
        decide_eq_true_eq, hn, if_false, List.nil_append]
      exact ih

/-- Matching the present (positive-count) blocks of an ordered category
list against that list recovers every count, zero-count categories
included, as long as the category symbols are pairwise distinct. -/
theorem matchCounts_filter :
    ∀ (ts : List (List Char)) (ns : List Nat), ts.length = ns.length →
      List.Pairwise (fun a b => a ≠ b) ts →
      matchCounts ts ((ts.zip ns).filter fun p => decide (0 < p.2)) = some ns := by
  intro ts
  induction ts with
  | nil =>
    intro ns hlen _
    cases ns with
    | nil => rfl
    | cons n ns => simp at hlen
  | cons t ts ih =>
    intro ns hlen hpw
    cases ns with
    | nil => simp at hlen
    | cons n ns =>
      have hlen2 : ts.length = ns.length := by simpa using hlen
      have hpw2 : List.Pairwise (fun a b => a ≠ b) ts := hpw.of_cons
      have hne : ∀ s ∈ ts, t ≠ s := fun s hs => (List.pairwise_cons.mp hpw).1 s hs
      by_cases hn : 0 < n
      · simp only [List.zip_cons_cons, List.filter_cons, decide_eq_true_eq, hn, if_true]
        simp only [matchCounts, if_pos rfl]
        rw [ih ns hlen2 hpw2]
        simp
      · have hn0 : n = 0 := by omega
        subst hn0
        simp only [List.zip_cons_cons, List.filter_cons, decide_eq_true_eq, hn, if_false]
        cases hrest : (ts.zip ns).filter (fun p => decide (0 < p.2)) with
        | nil =>
          have hrec := ih ns hlen2 hpw2
          rw [hrest] at hrec
          simp only [matchCounts]
          rw [hrec]
        | cons b bs =>
          obtain ⟨s, m⟩ := b
          have hmem : (s, m) ∈ ts.zip ns := by
            have hmf : (s, m) ∈ (ts.zip ns).filter (fun p => decide (0 < p.2)) := by
              rw [hrest]; simp
            exact List.mem_of_mem_filter hmf
          have hs_mem : s ∈ ts := (List.of_mem_zip hmem).1
          have hst : ¬(s = t) := fun h => (hne s hs_mem) h.symm
          simp only [matchCounts, if_neg hst]
          have hrec := ih ns hlen2 hpw2
          rw [hrest] at hrec
          rw [hrec]

/-- The characters of one emitted category group. -/
theorem countGroup_data (i : Int) (sym : String) (h : 0 ≤ i) :
    (countGroup i sym).data =
      (if 0 < i.toNat then sym.data ++ decimalChars i.toNat else []) := by
  unfold countGroup
  by_cases hp : 0 < i
  · rw [if_pos hp, if_pos (by omega), strData_append]
    unfold intDecimal
    rw [if_neg (by omega)]
    have habs : i.natAbs = i.toNat := by omega
    rw [habs]
  · rw [if_neg hp, if_neg (by omega)]

/-- The characters of the category-groups fragment are the rendering of
the (symbol, count) pairs in emission order. -/
theorem countsSection_data (status : Status) (symbols : Symbols)
    (h1 : 0 ≤ status.Staged) (h2 : 0 ≤ status.Conflict) (h3 : 0 ≤ status.Modified)
    (h4 : 0 ≤ status.Untracked) (h5 : 0 ≤ status.Stashed) :
    (countsSection status symbols).data =
      renderGroups (((groupSymbols symbols).map String.data).zip
        [status.Staged.toNat, status.Conflict.toNat, status.Modified.toNat,
          status.Untracked.toNat, status.Stashed.toNat]) := by
  unfold countsSection
  rw [strData_append, strData_append, strData_append, strData_append]
  rw [countGroup_data _ _ h1, countGroup_data _ _ h2, countGroup_data _ _ h3,
    countGroup_data _ _ h4, countGroup_data _ _ h5]
  simp [groupSymbols, renderGroups, List.append_assoc]

/-- C1.  For every status summary with non-negative counts and every
symbol table whose five category symbols are distinguishable (nonempty,
digit-free, pairwise distinct), re-parsing the per-category groups that
`buildOutput` emits (its `countsSection` fragment) recovers the five
counts, in the fixed emission order staged, conflict, modified,
untracked, stashed. -/
theorem render_reparse_counts (status : Status) (symbols : Symbols)
    (h1 : 0 ≤ status.Staged) (h2 : 0 ≤ status.Conflict) (h3 : 0 ≤ status.Modified)
    (h4 : 0 ≤ status.Untracked) (h5 : 0 ≤ status.Stashed)
    (hd : distinguishable symbols) :
    parseGroups symbols (countsSection status symbols) =
      some [status.Staged, status.Conflict, status.Modified,
        status.Untracked, status.Stashed] := by
  have hdata := countsSection_data status symbols h1 h2 h3 h4 h5
  have hlen : ((groupSymbols symbols).map String.data).length =
      ([status.Staged.toNat, status.Conflict.toNat, status.Modified.toNat,
        status.Untracked.toNat, status.Stashed.toNat] : List Nat).length := by
    simp [groupSymbols]
  have hpw : List.Pairwise (fun a b => a ≠ b) ((groupSymbols symbols).map String.data) := by
    rw [List.pairwise_map]
    exact hd.2
  have hvalid : ∀ b ∈ (((groupSymbols symbols).map String.data).zip
      [status.Staged.toNat, status.Conflict.toNat, status.Modified.toNat,
        status.Untracked.toNat, status.Stashed.toNat]).filter
        (fun p => decide (0 < p.2)), validBlock b := by
    intro b hb
    obtain ⟨s, n⟩ := b
    have hmem := List.mem_of_mem_filter hb
    have hpos : 0 < n := by simpa using List.of_mem_filter hb
    have hs := (List.of_mem_zip hmem).1
    obtain ⟨t, ht_mem, rfl⟩ := List.mem_map.mp hs
    obtain ⟨hne, hnd⟩ := hd.1 t ht_mem
    exact ⟨hne, hnd, hpos⟩
  unfold parseGroups
  rw [hdata, renderGroups_eq_renderBlocks, parseBlocks_renderBlocks _ hvalid]
  simp only [matchCounts_filter _ _ hlen hpw]
  simp [Int.toNat_of_nonneg h1, Int.toNat_of_nonneg h2, Int.toNat_of_nonneg h3,
    Int.toNat_of_nonneg h4, Int.toNat_of_nonneg h5]

/-- The default symbol table has distinguishable category symbols. -/
theorem distinguishable_default : distinguishable defaultSymbols :=
  ⟨by decide,
    .cons (by decide) (.cons (by decide) (.cons (by decide)
      (.cons (by decide) (.cons (by decide) .nil))))⟩

/-- Witness for C1 at a concrete summary and the default symbol table. -/
theorem render_reparse_counts_witness :
    parseGroups defaultSymbols
        (countsSection { Status.empty with Staged := 1, Modified := 2, Stashed := 3 }
          defaultSymbols) =
      some [1, 0, 2, 0, 3] :=
  render_reparse_counts _ defaultSymbols (by decide) (by decide) (by decide)
    (by decide) (by decide) distinguishable_default

/-- C2.  Classification of a changed-entry record (first field `1` or
`2`) with a two-character code: a conflict code increments only the
conflict count; otherwise a second character `M` increments only the
modified count; in all remaining cases only the staged count is
incremented. -/
theorem changed_entry_classification (st : Status) (line : String)
    (f0 code : String) (rest : List String)
    (hf : fields line = f0 :: code :: rest)
    (h01 : f0 = "1" ∨ f0 = "2")
    (hlen : code.data.length = 2) :
    (code ∈ conflictCodes →
      parseLine st line = .ok { st with Conflict := st.Conflict + 1 }) ∧
    (code ∉ conflictCodes → code.data.get? 1 = some 'M' →
      parseLine st line = .ok { st with Modified := st.Modified + 1 }) ∧
    (code ∉ conflictCodes → (∀ c, code.data.get? 1 = some c → c ≠ 'M') →
      parseLine st line = .ok { st with Staged := st.Staged + 1 }) := by
  have hne : ¬(f0 = "#") := by rcases h01 with rfl | rfl <;> decide
  have hbase : parseLine st line = parseChanged st (code :: rest) := by
    unfold parseLine
    rw [hf]
    simp only [parseLineFields]
    rw [if_neg hne, if_pos h01]
  refine ⟨?_, ?_, ?_⟩
  · intro hc
    rw [hbase]
    simp only [parseChanged]
    rw [if_pos hc]
  · intro hc hM
    rw [hbase]
    simp only [parseChanged]
    rw [if_neg hc, hM]
    simp
  · intro hc hnM
    rw [hbase]
    simp only [parseChanged]
    rw [if_neg hc]
    cases hg : code.data.get? 1 with
    | none =>
      have : code.data.length ≤ 1 := List.get?_eq_none.mp hg
      omega
    | some c =>
      have hcm : ¬(c = 'M') := hnM c hg
      simp [hcm]

/-- Witness for C2: the conflict code `UU` on a concrete record. -/
theorem changed_entry_classification_witness :
    parseLine Status.empty "1 UU x" =
      .ok { Status.empty with Conflict := Status.empty.Conflict + 1 } :=
  (changed_entry_classification Status.empty "1 UU x" "1" "UU" ["x"]
    (by decide) (Or.inl rfl) (by decide)).1 (by decide)

/-- C3.  The ahead/behind section of `buildOutput`: nothing when both
counts are zero; a space and one group when exactly one count is
positive; a single leading space and the two groups juxtaposed (no space
between them) when both are positive. -/
theorem aheadBehind_formatting (status : Status) (symbols : Symbols) :
    (status.Ahead = 0 ∧ status.Behind = 0 → aheadBehind status symbols = "") ∧
    (0 < status.Ahead ∧ status.Behind = 0 →
      aheadBehind status symbols = " " ++ symbols.Ahead ++ intDecimal status.Ahead) ∧
    (status.Ahead = 0 ∧ 0 < status.Behind →
      aheadBehind status symbols = " " ++ symbols.Behind ++ intDecimal status.Behind) ∧
    (0 < status.Ahead ∧ 0 < status.Behind →
      aheadBehind status symbols =
        " " ++ symbols.Ahead ++ intDecimal status.Ahead ++
          symbols.Behind ++ intDecimal status.Behind) := by
  refine ⟨?_, ?_, ?_, ?_⟩
  · rintro ⟨ha, hb⟩
    unfold aheadBehind
    rw [if_neg (by omega)]
  · rintro ⟨ha, hb⟩
    unfold aheadBehind
    rw [if_pos (Or.inl ha), if_pos ha, if_neg (by omega)]
    simp [strAppend_assoc, strAppend_empty]
  · rintro ⟨ha, hb⟩
    unfold aheadBehind
    rw [if_pos (Or.inr hb), if_neg (by omega), if_pos hb]
    simp [strAppend_assoc, strAppend_empty, strEmpty_append]
  · rintro ⟨ha, hb⟩
    unfold aheadBehind
    rw [if_pos (Or.inl ha), if_pos ha, if_pos hb]
    simp [strAppend_assoc]

/-- Witness for C3 at ahead 3, behind 2 with the default symbols. -/
theorem aheadBehind_formatting_witness :
    aheadBehind { Status.empty with Ahead := 3, Behind := 2 } defaultSymbols =
      " " ++ defaultSymbols.Ahead ++ intDecimal 3 ++
        defaultSymbols.Behind ++ intDecimal 2 :=
  (aheadBehind_formatting { Status.empty with Ahead := 3, Behind := 2 }
    defaultSymbols).2.2.2 ⟨by decide, by decide⟩

/-- C4.  Detached rendering: when the branch is the sentinel
`(detached)` (and the commit id, per the data model a full hash, has at
least 7 characters), `buildOutput` emits `:` followed by exactly the
first 7 characters of the commit id, and the upstream name, local
symbol, and ahead/behind groups are absent from the output. -/
theorem buildOutput_detached (status : Status) (state : State) (symbols : Symbols)
    (hb : status.Branch = "(detached)") (hc : 7 ≤ status.Commit.length) :
    buildOutput status state symbols =
      some (symbols.Prefix ++ (":" ++ strTake status.Commit 7) ++ symbols.Sep ++
        stateSection state symbols ++ countsSection status symbols ++
        cleanSection status symbols ++ symbols.Suffix) ∧
    (strTake status.Commit 7).length = 7 := by
  constructor
  · have hhead : headSection status symbols = some (":" ++ strTake status.Commit 7) := by
      unfold headSection
      rw [hb, if_pos rfl, if_neg (by omega)]
    unfold buildOutput
    rw [hhead]
  · show (status.Commit.data.take 7).length = 7
    rw [List.length_take]
    have hlen : status.Commit.data.length = status.Commit.length := rfl
    omega

/-- Witness for C4 at a concrete detached summary. -/
theorem buildOutput_detached_witness :
    buildOutput { Status.empty with Branch := "(detached)", Commit := "0123456789" }
      emptyState defaultSymbols = some "[:0123456|✔]" := by
  have h := buildOutput_detached
    { Status.empty with Branch := "(detached)", Commit := "0123456789" }
    emptyState defaultSymbols rfl (by decide)
  rw [h.1]
  decide

/-- C5.  The clean symbol is emitted (and no category group) exactly in
the all-zero case: all five counts zero yields an empty groups fragment
and the clean symbol; any positive count suppresses the clean symbol. -/
theorem clean_symbol_cases (status : Status) (symbols : Symbols) :
    (status.Staged = 0 ∧ status.Conflict = 0 ∧ status.Modified = 0 ∧
        status.Untracked = 0 ∧ status.Stashed = 0 →
      countsSection status symbols = "" ∧ cleanSection status symbols = symbols.Clean) ∧
    ((0 < status.Staged ∨ 0 < status.Conflict ∨ 0 < status.Modified ∨
        0 < status.Untracked ∨ 0 < status.Stashed) →
      cleanSection status symbols = "") := by
  constructor
  · rintro ⟨ha, hb, hc, hd, he⟩
    constructor
    · unfold countsSection
      rw [ha, hb, hc, hd, he]
      unfold countGroup
      rw [if_neg (by omega)]
      simp [strEmpty_append]
    · unfold cleanSection
      rw [if_pos ⟨ha, hb, hc, hd, he⟩]
  · intro h
    unfold cleanSection
    rw [if_neg (by rintro ⟨c1, c2, c3, c4, c5⟩; omega)]

/-- Witness for C5: the all-zero summary with default symbols, and a
positive-count summary suppressing the clean symbol. -/
theorem clean_symbol_cases_witness :
    (countsSection Status.empty defaultSymbols = "" ∧
      cleanSection Status.empty defaultSymbols = defaultSymbols.Clean) ∧
    cleanSection { Status.empty with Modified := 1 } defaultSymbols = "" :=
  ⟨(clean_symbol_cases Status.empty defaultSymbols).1
      ⟨rfl, rfl, rfl, rfl, rfl⟩,
    (clean_symbol_cases { Status.empty with Modified := 1 } defaultSymbols).2
      (Or.inr (Or.inr (Or.inl (by decide))))⟩

/-- C6.  The operation-state section of `buildOutput`: a non-empty state
label is emitted followed — exactly when the total is positive — by a
space and `step/total`, and then by the separator again; an empty label
emits nothing. -/
theorem stateSection_cases (state : State) (symbols : Symbols) :
    (state.State = "" → stateSection state symbols = "") ∧
    (state.State ≠ "" → 0 < state.Total →
      stateSection state symbols =
        state.State ++ " " ++ intDecimal state.Step ++ "/" ++
          intDecimal state.Total ++ symbols.Sep) ∧
    (state.State ≠ "" → state.Total ≤ 0 →
      stateSection state symbols = state.State ++ symbols.Sep) := by
  refine ⟨?_, ?_, ?_⟩
  · intro h
    unfold stateSection
    rw [if_pos h]
  · intro h ht
    unfold stateSection
    rw [if_neg h, if_pos ht]
    simp [strAppend_assoc]
  · intro h ht
    unfold stateSection
    rw [if_neg h, if_neg (by omega), strAppend_empty]

/-- Witness for C6 at an interactive rebase two steps into five. -/
theorem stateSection_cases_witness :
    stateSection { Step := 2, Total := 5, State := "REBASE-i" } defaultSymbols =
      "REBASE-i" ++ " " ++ intDecimal 2 ++ "/" ++ intDecimal 5 ++ defaultSymbols.Sep :=
  (stateSection_cases { Step := 2, Total := 5, State := "REBASE-i" }
    defaultSymbols).2.1 (by decide) (by decide)

/-- C7.  Exit code 128 from the toplevel query (the "not a repository"
signal) makes the run terminate silently and successfully with no
output; any other failure of that query — a different exit code or a
failure to run the command — is a fatal error. -/
theorem notRepo_silent_exit (opState : State) (statusOut : String) (symbols : Symbols) :
    (mainRun (.exitErr 128) opState statusOut symbols = .silentSuccess) ∧
    (∀ code : Int, code ≠ 128 →
      mainRun (.exitErr code) opState statusOut symbols = .fatalError) ∧
    (mainRun .otherErr opState statusOut symbols = .fatalError) := by
  refine ⟨rfl, ?_, rfl⟩
  intro code hcode
  have hg : gitStateClassify (.exitErr code) = .fatal := by
    simp only [gitStateClassify]
    rw [if_neg hcode]
  unfold mainRun
  rw [hg]

/-- Witness for C7 at exit code 1. -/
theorem notRepo_silent_exit_witness :
    mainRun (.exitErr 1) emptyState "" defaultSymbols = .fatalError :=
  (notRepo_silent_exit emptyState "" defaultSymbols).2.1 1 (by decide)

/-- Counterexample to C8 as stated: a successful run prints the rendered
string with no trailing newline (`fmt.Print`, and `buildOutput` appends
nothing after the suffix symbol). -/
theorem printed_no_newline_counterexample :
    mainRun (.ok "/repo") emptyState "# branch.head main" defaultSymbols =
      .printed "[main L|✔]" ∧
    ¬ endsWithNewline "[main L|✔]" :=
  ⟨by decide, by unfold endsWithNewline; decide⟩

/-- C8 as amended: on every successful run inside a repository the
rendered display string is printed to standard output exactly as
rendered — the program appends nothing, in particular no newline. -/
theorem main_prints_exact_render (rev : CmdOutcome) (top : String) (opState : State)
    (statusOut : String) (symbols : Symbols) (status : Status) (out : String)
    (hrev : gitStateClassify rev = .proceed top)
    (hps : parseStatus statusOut = .ok status)
    (hbo : buildOutput status opState symbols = some out) :
    mainRun rev opState statusOut symbols = .printed out := by
  simp only [mainRun, hrev, hps, hbo]

/-- Witness for the amended C8 on a concrete run. -/
theorem main_prints_exact_render_witness :
    mainRun (.ok "/r") emptyState "# branch.head main" defaultSymbols =
      .printed "[main L|✔]" :=
  main_prints_exact_render (.ok "/r") "/r" emptyState "# branch.head main"
    defaultSymbols { Status.empty with Branch := "main" } "[main L|✔]"
    rfl (by decide) (by decide)

/-- `branch.oid` never faults when the field is present. -/
theorem parseSetCommit_no_panic (st : Status) (l : List String) (h : 1 ≤ l.length) :
    parseSetCommit st l ≠ .error .panic := by
  cases l with
  | nil => simp at h
  | cons f2 r => simp [parseSetCommit]

/-- `branch.head` never faults when the field is present. -/
theorem parseSetBranch_no_panic (st : Status) (l : List String) (h : 1 ≤ l.length) :
    parseSetBranch st l ≠ .error .panic := by
  cases l with
  | nil => simp at h
  | cons f2 r => simp [parseSetBranch]

/-- `branch.upstream` never faults when the field is present. -/
theorem parseSetUpstream_no_panic (st : Status) (l : List String) (h : 1 ≤ l.length) :
    parseSetUpstream st l ≠ .error .panic := by
  cases l with
  | nil => simp at h
  | cons f2 r => simp [parseSetUpstream]

/-- `stash` never faults when the field is present (a non-numeric field
is a returned error, not a fault). -/
theorem parseStash_no_panic (st : Status) (l : List String) (h : 1 ≤ l.length) :
    parseStash st l ≠ .error .panic := by
  cases l with
  | nil => simp at h
  | cons f2 r =>
    simp only [parseStash]
    cases hatoi : atoi f2 <;> simp

/-- `branch.ab` never faults on a safe tail. -/
theorem parseAB_no_panic (st : Status) (rest2 : List String)
    (h : safeABFields rest2 = true) : parseAB st rest2 ≠ .error .panic := by
  match rest2 with
  | [] => simp [safeABFields] at h
  | [f2] => simp [safeABFields] at h
  | f2 :: f3 :: r =>
    simp only [safeABFields, Bool.and_eq_true, Bool.not_eq_true'] at h
    obtain ⟨h2, h3⟩ := h
    simp only [parseAB]
    rw [if_neg (by simp [h2])]
    cases ha : atoi (String.mk (f2.data.drop 1)) with
    | none => simp
    | some ahead =>
      simp only [parseABBehind]
      rw [if_neg (by simp [h3])]
      cases hb : atoi (String.mk (f3.data.drop 1)) with
      | none => simp
      | some behind => simp

/-- A header record never faults on a safe tail. -/
theorem parseHeader_no_panic (st : Status) (rest : List String)
    (h : safeHeaderFields rest = true) : parseHeader st rest ≠ .error .panic := by
  cases rest with
  | nil => simp [safeHeaderFields] at h
  | cons f1 rest2 =>
    simp only [parseHeader]
    simp only [safeHeaderFields] at h
    by_cases hoid : f1 = "branch.oid"
    · rw [if_pos (Or.inl hoid)] at h
      rw [if_pos hoid]
      exact parseSetCommit_no_panic st rest2 (of_decide_eq_true h)
    · by_cases hhead : f1 = "branch.head"
      · rw [if_pos (Or.inr (Or.inl hhead))] at h
        rw [if_neg hoid, if_pos hhead]
        exact parseSetBranch_no_panic st rest2 (of_decide_eq_true h)
      · by_cases hstash : f1 = "stash"
        · rw [if_pos (Or.inr (Or.inr (Or.inr hstash)))] at h
          rw [if_neg hoid, if_neg hhead, if_pos hstash]
          exact parseStash_no_panic st rest2 (of_decide_eq_true h)
        · by_cases hup : f1 = "branch.upstream"
          · rw [if_pos (Or.inr (Or.inr (Or.inl hup)))] at h
            rw [if_neg hoid, if_neg hhead, if_neg hstash, if_pos hup]
            exact parseSetUpstream_no_panic st rest2 (of_decide_eq_true h)
          · by_cases hab : f1 = "branch.ab"
            · have hnor : ¬(f1 = "branch.oid" ∨ f1 = "branch.head" ∨
                  f1 = "branch.upstream" ∨ f1 = "stash") := by
                rintro (h' | h' | h' | h')
                exacts [hoid h', hhead h', hup h', hstash h']
              rw [if_neg hnor, if_pos hab] at h
              rw [if_neg hoid, if_neg hhead, if_neg hstash, if_neg hup, if_pos hab]
              exact parseAB_no_panic st rest2 h
            · rw [if_neg hoid, if_neg hhead, if_neg hstash, if_neg hup, if_neg hab]
              simp

/-- A changed-entry record never faults on a safe tail. -/
theorem parseChanged_no_panic (st : Status) (rest : List String)
    (h : safeChangedFields rest = true) : parseChanged st rest ≠ .error .panic := by
  cases rest with
  | nil => simp [safeChangedFields] at h
  | cons f1 r =>
    have hlen : 2 ≤ f1.data.length := of_decide_eq_true (by simpa [safeChangedFields] using h)
    simp only [parseChanged]
    by_cases hc : f1 ∈ conflictCodes
    · rw [if_pos hc]
      simp
    · rw [if_neg hc]
      cases hg : f1.data.get? 1 with
      | none =>
        have hle := List.get?_eq_none.mp hg
        omega
      | some c =>
        by_cases hM : c = 'M' <;> simp [hM]

/-- A record never faults on a safe field list. -/
theorem parseLineFields_no_panic (st : Status) (fs : List String)
    (hs : safeFieldsList fs = true) : parseLineFields st fs ≠ .error .panic := by
  cases fs with
  | nil => simp [safeFieldsList] at hs
  | cons f0 rest =>
    simp only [parseLineFields]
    simp only [safeFieldsList] at hs
    by_cases h0 : f0 = "#"
    · rw [if_pos h0] at hs
      rw [if_pos h0]
      exact parseHeader_no_panic st rest hs
    · by_cases h12 : f0 = "1" ∨ f0 = "2"
      · rw [if_neg h0, if_pos h12] at hs
        rw [if_neg h0, if_pos h12]
        exact parseChanged_no_panic st rest hs
      · rw [if_neg h0, if_neg h12]
        by_cases hq : f0 = "?"
        · rw [if_pos hq]
          simp
        · rw [if_neg hq]
          simp

/-- The whole loop never faults when every line is safe. -/
theorem parseLines_no_panic : ∀ (ls : List String) (st : Status),
    (∀ l ∈ ls, safeFields l = true) → parseLines st ls ≠ .error .panic := by
  intro ls
  induction ls with
  | nil =>
    intro st h
    simp [parseLines]
  | cons l ls ih =>
    intro st h
    simp only [parseLines]
    cases hp : parseLine st l with
    | ok st2 => exact ih st2 (fun x hx => h x (List.mem_cons_of_mem _ hx))
    | error e =>
      have hnp : parseLine st l ≠ .error .panic :=
        parseLineFields_no_panic st (fields l) (h l (List.mem_cons_self _ _))
      rw [hp] at hnp
      simpa using hnp

/-- Counterexample to C9's universal half: the record `# branch.ab  +1`
(with an empty third field from the doubled space) has 4 fields, meeting
the `branch.ab` minimum field count, yet `parseStatus` produces an
out-of-range fault — the slice `s[2][1:]` of the empty field. -/
theorem minFields_not_sufficient_counterexample :
    (∀ line ∈ gitLines "# branch.ab  +1", specMinFields line = true) ∧
    parseStatus "# branch.ab  +1" = .error .panic :=
  ⟨by decide, by decide⟩

/-- C9 as amended.  A record shorter than its type's minimum produces an
out-of-range fault (witnessed by the bare `#` report); and under the
strengthened precondition — minimum field counts, a two-character
changed-entry code, and nonempty sliced `branch.ab` fields — no fault
occurs: `parseStatus` returns a summary or a returned parse error. -/
theorem parseStatus_fault_conditions :
    parseStatus "#" = .error .panic ∧
    ∀ output : String, (∀ line ∈ gitLines output, safeFields line = true) →
      parseStatus output ≠ .error .panic := by
  refine ⟨by decide, ?_⟩
  intro output h
  unfold parseStatus
  exact parseLines_no_panic (gitLines output) Status.empty h

/-- Witness for the amended C9 on a concrete safe report. -/
theorem parseStatus_fault_conditions_witness :
    parseStatus "# branch.head main\n? f" ≠ .error .panic :=
  parseStatus_fault_conditions.2 "# branch.head main\n? f" (by decide)

/-- C10.  `buildOutput` on a detached summary is total exactly on commit
ids of at least 7 characters: with at least 7 it returns a string, and
on a shorter one the slice `Commit[:7]` faults (second conjunct shows a
3-character commit id). -/
theorem buildOutput_detached_totality :
    (∀ (status : Status) (state : State) (symbols : Symbols),
      status.Branch = "(detached)" → 7 ≤ status.Commit.length →
      (buildOutput status state symbols).isSome = true) ∧
    buildOutput { Status.empty with Branch := "(detached)", Commit := "abc" }
      emptyState defaultSymbols = none := by
  constructor
  · intro status state symbols hb hc
    have hhead : headSection status symbols = some (":" ++ strTake status.Commit 7) := by
      unfold headSection
      rw [hb, if_pos rfl, if_neg (by omega)]
    unfold buildOutput
    rw [hhead]
    simp
  · decide

/-- Witness for C10's universal half at a 7-character commit id. -/
theorem buildOutput_detached_totality_witness :
    (buildOutput { Status.empty with Branch := "(detached)", Commit := "1234567" }
      emptyState defaultSymbols).isSome = true :=
  buildOutput_detached_totality.1
    { Status.empty with Branch := "(detached)", Commit := "1234567" }
    emptyState defaultSymbols rfl (by decide)
